import Mathlib

/-!
Verification development for the virtualized masonry ("waterfall") layout and
incremental thumbnail-loading engine of the image-browser repository
(`src/optimized_waterfall_widget_v4_3_performance.py`).

The Python code is shallowly embedded:
* Qt widget state is carried in explicit structures (`Thumb`, `WState`);
* Python floats (aspect ratios) are modelled as rationals;
* Python `int(x)` (truncation toward zero) is `pyInt`, Python `//` on ints
  (floor division) is `Int.fdiv`;
* the filesystem (thumbnail-cache existence, image dimensions read by PIL)
  is an explicit environment;
* synchronous Qt signal delivery (`load_completed.emit()` calling the
  connected slot before the emitter returns) is modelled by direct calls,
  with a fuel parameter bounding the re-entrant recursion.
-/

/-- Python `int(x)` for a rational: truncation toward zero. -/
def pyInt (q : ℚ) : ℤ :=
  if 0 ≤ q then ⌊q⌋ else -⌊-q⌋

/-- `max lo (min x hi)` — the shape of the Python clamp
`max(lo, min(x, hi))` used for aspect ratios. -/
def clampQ (lo hi x : ℚ) : ℚ := max lo (min x hi)

/-- Straight rounding `floor (q + 1/2)`: the `round(...)` the spec text
names for item heights (the counterexamples below avoid exact halves, so any
tie-breaking convention agrees). -/
def qRound (q : ℚ) : ℤ := ⌊q + 1/2⌋

/-- `self.view_mode`: the two view modes of `OptimizedWaterfallLayout`. -/
inductive VMode where
  | waterfall
  | grid
deriving DecidableEq

/-- The per-widget inputs `calculate_item_height` reads: the cached
`aspect_ratio` attribute (source name `aspect_ratio`; shortened here to
`aspect`), the decoded `pixmap` dimensions (width, height; `none` models a
missing or null pixmap), and the dimensions PIL would read from the image
file (`none` models an unreadable file, i.e. the `except` branch). -/
structure WidgetH where
  aspect : Option ℚ
  pixmap : Option (ℕ × ℕ)
  fileDims : Option (ℕ × ℕ)
deriving DecidableEq

/-- The PIL fallback of `calculate_item_height`: try the image file's
dimensions, clamp the ratio to `[0.4, 2.5]`, else the default factor 1.2.
`padding` is the fixed 5 px of the source. -/
def fromFileOrDefault (w : WidgetH) (colW : ℤ) : ℤ :=
  match w.fileDims with
  | some (fw, fh) =>
    if 0 < fw then pyInt ((colW : ℚ) * clampQ (2/5) (5/2) ((fh : ℚ) / (fw : ℚ))) + 5
    else pyInt ((colW : ℚ) * (6/5)) + 5
  | none => pyInt ((colW : ℚ) * (6/5)) + 5

/-- `OptimizedWaterfallLayout.calculate_item_height`.  `cached` is the
`_cached_item_heights` entry for this widget's id (the source returns it
unchanged on a hit and stores the freshly computed value on a miss; the
store is omitted since each widget id is looked up once per pass).
Branches, in source order: height cache; grid mode `column_width + 5`;
the widget's cached `aspect_ratio`; the loaded pixmap's ratio clamped to
`[0.4, 2.5]`; the PIL file probe; the default factor `1.2`. -/
def calculateItemHeight (cached : Option ℤ) (vm : VMode) (w : WidgetH) (colW : ℤ) : ℤ :=
  match cached with
  | some h => h
  | none =>
    if vm = VMode.grid then colW + 5
    else
      match w.aspect with
      | some ar => pyInt ((colW : ℚ) * ar) + 5
      | none =>
        match w.pixmap with
        | some (pw, ph) =>
          if 0 < pw then
            pyInt ((colW : ℚ) * clampQ (2/5) (5/2) ((ph : ℚ) / (pw : ℚ))) + 5
          else fromFileOrDefault w colW
        | none => fromFileOrDefault w colW

/-- Python `min(a, l...)`: the minimum of a nonempty list given as head
and tail. -/
def listMin : ℤ → List ℤ → ℤ
  | a, [] => a
  | a, b :: l => listMin (min a b) l

/-- Python `l.index(min(l))`: the first index at which a list of column
heights attains its minimum (`column_heights.index(min(column_heights))`). -/
def idxOfMin : List ℤ → ℕ
  | [] => 0
  | [_] => 0
  | a :: b :: l => if a ≤ listMin b l then 0 else 1 + idxOfMin (b :: l)

/-- One geometry rectangle as handed to `widget.setGeometry(x, y, w, h)`. -/
structure Slot where
  x : ℤ
  y : ℤ
  w : ℤ
  h : ℤ
deriving DecidableEq

/-- The placement loop of `do_layout` (`for item in self.items:`): walk the
items in order; a `none` item models `item.widget()` being falsy and is
skipped (`continue`); otherwise pick the first shortest column, place the
item at `(rect.x() + spacing + col*(colW + spacing), rect.y() + heights[col])`
with the computed height, and bump that column by `height + spacing`.
`k` is the running item position, used as the height-cache key. -/
def placeItems (rx ry spacing colW : ℤ) (vm : VMode) (hcache : ℕ → Option ℤ) :
    ℕ → List ℤ → List (Option WidgetH) → List (Option Slot)
  | _, _, [] => []
  | k, hs, none :: rest => none :: placeItems rx ry spacing colW vm hcache (k+1) hs rest
  | k, hs, some w :: rest =>
    let c := idxOfMin hs
    let h := calculateItemHeight (hcache k) vm w colW
    some ⟨rx + spacing + (c : ℤ) * (colW + spacing), ry + hs.getD c 0, colW, h⟩ ::
      placeItems rx ry spacing colW vm hcache (k+1)
        (hs.set c (hs.getD c 0 + h + spacing)) rest

/-- The column-count computation of `do_layout`:
`max_possible_columns = available_width // (min_column_width + spacing)` and
`columns = min(columns, max(1, max_possible_columns))`. -/
def computeColumns (cfg minColW spacing aw : ℤ) : ℤ :=
  min cfg (max 1 (Int.fdiv aw (minColW + spacing)))

/-- `OptimizedWaterfallLayout.do_layout` on the cache-miss
(`_layout_dirty`) path, as a pure function.  `cfgW`/`cfgG` are the
configured `waterfall_columns`/`grid_columns`; `rx`, `ry`, `rw` the rect's
x, y and width; `hcache` the height cache keyed by item position.  The
source's fast path (when the layout is clean and all positions are cached)
merely re-applies the positions this very computation produced earlier, so
it is not modelled separately.  Returns `none` exactly when the column
count is non-positive, where the Python would raise `ValueError` from
`min([])` (reachable only from a non-positive configured column count);
an empty item list returns early placing nothing. -/
def doLayout (cfgW cfgG : ℤ) (vm : VMode) (spacing rx ry rw : ℤ)
    (items : List (Option WidgetH)) (hcache : ℕ → Option ℤ) :
    Option (List (Option Slot)) :=
  if items = [] then some []
  else
    let aw := rw - 20
    let minColW : ℤ := if vm = VMode.waterfall then 150 else 100
    let cfg := if vm = VMode.waterfall then cfgW else cfgG
    let columns := computeColumns cfg minColW spacing aw
    if 0 < columns then
      let totalSpacing := (columns + 1) * spacing
      let colW := Int.fdiv (aw - totalSpacing) columns
      some (placeItems rx ry spacing colW vm hcache 0
        (List.replicate columns.toNat spacing) items)
    else none

/-- Modelled from the spec: per-item heights for a list of widgets, item
`k` onward, via `calculate_item_height` with the height cache. -/
def itemHeights (hcache : ℕ → Option ℤ) (vm : VMode) (colW : ℤ) :
    ℕ → List WidgetH → List ℤ
  | _, [] => []
  | k, w :: ws => calculateItemHeight (hcache k) vm w colW ::
      itemHeights hcache vm colW (k+1) ws

/-- Modelled from the spec: the shortest-column placement heuristic as the
spec words it — for each item in index order, select the column with the
minimum current accumulated height, place the item at
`(columnX(col), accumulatedHeight(col))`, then add `itemHeight + spacing`
to that column's accumulated height. -/
def specShortestColumn (rx ry spacing colW : ℤ) : List ℤ → List ℤ → List Slot
  | _, [] => []
  | acc, h :: rest =>
    let c := idxOfMin acc
    ⟨rx + spacing + (c : ℤ) * (colW + spacing), ry + acc.getD c 0, colW, h⟩ ::
      specShortestColumn rx ry spacing colW (acc.set c (acc.getD c 0 + h + spacing)) rest

/-- Modelled from the spec: the spec's column-count rule — the largest
`k ≤ cfg` with `k * minColumnWidth + (k+1) * spacing ≤ availableWidth`,
falling back to 1 if no such `k` exists. -/
def specColsAux (minColW spacing aw : ℤ) : ℕ → ℤ
  | 0 => 1
  | k + 1 =>
    if ((k : ℤ) + 1) * minColW + (((k : ℤ) + 1) + 1) * spacing ≤ aw then (k : ℤ) + 1
    else specColsAux minColW spacing aw k

/-- Modelled from the spec: the spec's column count, bounded by the
configured maximum `cfg`. -/
def specColumnCount (cfg minColW spacing aw : ℤ) : ℤ :=
  specColsAux minColW spacing aw cfg.toNat

/-- Modelled from the spec: `round(columnWidth * aspectRatio) + fixedPadding`
with the ratio clamped to `[0.4, 2.5]` — the masonry item height exactly as
the spec sentence states it. -/
def specMasonryHeight (colW : ℤ) (ar : ℚ) : ℤ :=
  qRound ((colW : ℚ) * clampQ (2/5) (5/2) ar) + 5

/-- The text a thumbnail label currently shows, tracked because
`start_lazy_loading` probes it (the waiting placeholder is set at creation
and again on eviction, the loading message while a worker runs, the empty
text after a successful load, the failure text on a decode error). -/
inductive TextState where
  | waiting
  | loadingMsg
  | empty
  | failed
deriving DecidableEq

/-- The mutable per-thumbnail state of `OptimizedImageThumbnail` the core
reads and writes.  `path` and dimensions are numeric stand-ins for the
Python strings and pixmaps.  The source names `aspect_ratio` and
`image_size` appear here as `aspect` and `imgSize`; `wasCleaned` models the
dynamically added `was_cleaned` attribute (`hasattr` probing). -/
structure Thumb where
  path : ℕ
  index : ℕ
  loaded : Bool
  loading : Bool
  pixmap : Option (ℕ × ℕ)
  imgSize : Option (ℕ × ℕ)
  aspect : Option ℚ
  wasCleaned : Bool
  text : TextState
deriving DecidableEq

/-- A freshly constructed `OptimizedImageThumbnail(image_path, index, ...)`. -/
def freshThumb (p i : ℕ) : Thumb :=
  { path := p, index := i, loaded := false, loading := false,
    pixmap := none, imgSize := none, aspect := none,
    wasCleaned := false, text := TextState.waiting }

/-- `cache_image_size(pixmap)`: record the pixmap dimensions and, when the
width is positive, cache the ratio `height / width` clamped to
`[0.6, 1.8]`. -/
def cacheImageSize (t : Thumb) (pw ph : ℕ) : Thumb :=
  if 0 < pw then
    { t with imgSize := some (pw, ph),
             aspect := some (clampQ (3/5) (9/5) ((ph : ℚ) / (pw : ℚ))) }
  else { t with imgSize := some (pw, ph) }

/-- `set_thumbnail_from_cache` / `set_thumbnail` applied to a pixmap with
the given dimensions ((0, 0) models a null `QPixmap`, on which the method
does nothing and emits no signal).  Returns the updated thumbnail and
whether `load_completed` was emitted. -/
def setThumbnailFromCache (t : Thumb) (dims : ℕ × ℕ) : Thumb × Bool :=
  if dims.1 = 0 ∧ dims.2 = 0 then (t, false)
  else
    (cacheImageSize
      { t with pixmap := some dims, loading := false, loaded := true,
               text := TextState.empty, wasCleaned := false }
      dims.1 dims.2, true)

/-- The filesystem as the scheduler sees it: whether a thumbnail-cache file
exists for a path (`os.path.exists(cache_path)`), and the pixmap dimensions
`QPixmap(cache_path)` would yield for it. -/
structure Env where
  cacheExists : ℕ → Bool
  cacheDims : ℕ → ℕ × ℕ

/-- `self.max_concurrent_workers = 6`. -/
def maxConcurrentWorkers : ℕ := 6

/-- The scheduler bookkeeping of `OptimizedWaterfallWidget`: the thumbnail
list, the `active_workers` counter and the `pending_loads` FIFO (holding
positions into `thumbs`; no removals occur in the traces modelled here, so
object identity and list position coincide). -/
structure WState where
  thumbs : List Thumb
  activeWorkers : ℕ
  pending : List ℕ
deriving DecidableEq

/-- Replace the thumbnail at position `i`. -/
def setThumb (s : WState) (i : ℕ) (t : Thumb) : WState :=
  { s with thumbs := s.thumbs.set i t }

/-- The decrement at the top of `on_thumbnail_loaded`:
`if self.active_workers > 0: self.active_workers -= 1`. -/
def decWorkers (s : WState) : WState :=
  if 0 < s.activeWorkers then { s with activeWorkers := s.activeWorkers - 1 } else s

/-- The number of decode worker threads currently alive: a worker is
spawned exactly when `loading` is set and terminates exactly when a
completion clears it, so in-flight decodes are the `loading` thumbnails. -/
def inflightCount (s : WState) : ℕ :=
  s.thumbs.countP (fun t => t.loading)

/-- The `while self.pending_loads and self.active_workers < self.max_concurrent_workers:`
loop of `on_thumbnail_loaded`.  The source calls `next_thumbnail.start_loading()`
inside the loop; its body is inlined here after its guards (which the
loop's own `not loaded and not loading` check has already settled): a
cache hit loads synchronously, emits `load_completed`, and thereby
re-enters `on_thumbnail_loaded` (decrement + this very loop) before the
outer `continue`; a cache miss sets the loading state, spawns a worker and
takes the freed slot (`active_workers += 1; break`).  `fuel` bounds the
re-entrant recursion; any fuel exceeding the total pops performed gives
the exact semantics, since every iteration pops the queue. -/
def pendingLoop (env : Env) : ℕ → WState → WState
  | 0, s => s
  | fuel + 1, s =>
    match s.pending with
    | [] => s
    | i :: rest =>
      if s.activeWorkers < maxConcurrentWorkers then
        let s1 : WState := { s with pending := rest }
        match s1.thumbs.get? i with
        | none => pendingLoop env fuel s1
        | some t =>
          if t.loaded = false ∧ t.loading = false then
            if env.cacheExists t.path then
              let r := setThumbnailFromCache t (env.cacheDims t.path)
              let s2 := setThumb s1 i r.1
              let s3 := if r.2 then pendingLoop env fuel (decWorkers s2) else s2
              pendingLoop env fuel s3
            else
              let s2 := setThumb s1 i
                { t with loading := true, text := TextState.loadingMsg }
              { s2 with activeWorkers := s2.activeWorkers + 1 }
          else pendingLoop env fuel s1
      else s

/-- `on_thumbnail_loaded`: release the slot (guarded decrement), then drain
the pending queue.  (The `image_loaded` progress signal and
`update_widget_size` call do not touch scheduler state.) -/
def onThumbnailLoaded (env : Env) (fuel : ℕ) (s : WState) : WState :=
  pendingLoop env fuel (decWorkers s)

/-- `OptimizedImageThumbnail.start_loading` for the thumbnail at position
`i`: return unchanged while `loading`, or when already loaded with a pixmap
and not cleaned; on a cache hit load synchronously — emitting
`load_completed`, which synchronously runs `on_thumbnail_loaded`; otherwise
set the loading state and spawn a worker thread. -/
def startLoading (env : Env) (fuel : ℕ) (s : WState) (i : ℕ) : WState :=
  match s.thumbs.get? i with
  | none => s
  | some t =>
    if t.loading = true then s
    else if t.loaded = true ∧ t.pixmap ≠ none ∧ t.wasCleaned = false then s
    else if env.cacheExists t.path then
      let r := setThumbnailFromCache t (env.cacheDims t.path)
      let s1 := setThumb s i r.1
      if r.2 then onThumbnailLoaded env fuel s1 else s1
    else setThumb s i { t with loading := true, text := TextState.loadingMsg }

/-- A worker thread's completion for the thumbnail at position `i`
delivering a decoded pixmap: `set_thumbnail` updates the widget and emits
`load_completed`, which runs `on_thumbnail_loaded`. -/
def completeDecode (env : Env) (fuel : ℕ) (s : WState) (i : ℕ) (dims : ℕ × ℕ) : WState :=
  match s.thumbs.get? i with
  | none => s
  | some t =>
    let r := setThumbnailFromCache t dims
    if r.2 then onThumbnailLoaded env fuel (setThumb s i r.1) else setThumb s i r.1

/-- The `needs_loading` probe of `start_lazy_loading`: the waiting
placeholder is showing, or the thumbnail is neither loaded nor loading, or
it was cleaned (evicted) and is not loading. -/
def needsLoading (t : Thumb) : Bool :=
  decide (t.text = TextState.waiting) ||
  (!t.loaded && !t.loading) ||
  (t.wasCleaned && !t.loading)

/-- The body of the dispatch loop of `start_lazy_loading` for index `i`:
skip absent indices and thumbnails that need no load; load synchronously on
a cache hit (`"缓存存在，直接加载，不占用worker"` — no slot is taken);
otherwise start a worker and take a slot if one is free
(`active_workers += 1`), else append to `pending_loads` unless already
queued. -/
def dispatchStep (env : Env) (fuel : ℕ) (s : WState) (i : ℕ) : WState :=
  match s.thumbs.get? i with
  | none => s
  | some t =>
    if needsLoading t then
      if env.cacheExists t.path then
        startLoading env fuel s i
      else if s.activeWorkers < maxConcurrentWorkers then
        let s2 := startLoading env fuel s i
        { s2 with activeWorkers := s2.activeWorkers + 1 }
      else if i ∈ s.pending then s
      else { s with pending := s.pending ++ [i] }
    else s

/-- `start_lazy_loading`.  The visible range `(vs, ve)` is the result of
`calculate_visible_range()` (which reads Qt scroll geometry and is passed
in here as an input; `ve` is an exclusive bound, as in the source).  At
top-of-scroll (`visible_start == 0`) the load window is `[0, ve + 30)`,
otherwise `[vs - 10, ve + 20)`, both clipped to the thumbnail count. -/
def startLazyLoading (env : Env) (fuel : ℕ) (vs ve : ℕ) (s : WState) : WState :=
  if s.thumbs.length = 0 then s
  else
    let n := s.thumbs.length
    let loadStart := if vs = 0 then 0 else vs - 10
    let loadEnd := if vs = 0 then min n (ve + 30) else min n (ve + 20)
    (List.range' loadStart (loadEnd - loadStart)).foldl (dispatchStep env fuel) s

/-- The eviction applied by `cleanup_invisible_images` to one thumbnail:
drop the pixmap, clear `loaded`, set `was_cleaned`, restore the waiting
placeholder — and leave `aspect_ratio` (and `image_size`) untouched. -/
def evictThumb (t : Thumb) : Thumb :=
  { t with pixmap := none, loaded := false, wasCleaned := true,
           text := TextState.waiting }

/-- `loaded_count = sum(1 for t in self.thumbnails if t.loaded and ... t.pixmap)`. -/
def loadedCount (ts : List Thumb) : ℕ :=
  ts.countP (fun t => t.loaded && t.pixmap.isSome)

/-- The eviction scan of `cleanup_invisible_images`: walk the thumbnails
with their index `i`; outside the protected zone `[protS, protE)`, evict
each loaded thumbnail holding a pixmap, stopping after the 100th eviction
(`if cleaned_count >= 100: break`). -/
def cleanupLoop (protS protE : ℕ) : ℕ → ℕ → List Thumb → List Thumb
  | _, _, [] => []
  | i, cleaned, t :: ts =>
    if (i < protS ∨ protE ≤ i) ∧ t.loaded = true ∧ t.pixmap ≠ none then
      if 100 ≤ cleaned + 1 then evictThumb t :: ts
      else evictThumb t :: cleanupLoop protS protE (i + 1) (cleaned + 1) ts
    else t :: cleanupLoop protS protE (i + 1) cleaned ts

/-- `OptimizedWaterfallWidget.cleanup_invisible_images`, with the visible
range `(vs, ve)` (from `calculate_visible_range`; `ve` exclusive) as input:
do nothing when there are no thumbnails or fewer than 2000 are loaded;
otherwise evict outside `[max(0, vs - 150), min(n, ve + 150))` (natural
subtraction is the `max(0, ...)`), at most 100 per pass. -/
def cleanupInvisibleImages (ts : List Thumb) (vs ve : ℕ) : List Thumb :=
  if ts = [] then ts
  else if loadedCount ts < 2000 then ts
  else cleanupLoop (vs - 150) (min ts.length (ve + 150)) 0 0 ts

/-- The first-match-and-break search loop used by `on_thumbnail_clicked`
and `remove_thumbnail_by_path`: the index of the first element satisfying
the predicate, if any. -/
def findFirstIdx {α : Type} (pred : α → Bool) : List α → Option ℕ
  | [] => none
  | a :: l => if pred a then some 0 else (findFirstIdx pred l).map (· + 1)

/-- `update_thumbnail_indices(removed_index)` relative to a running start
position: `for i in range(removed_index, len(...)): thumbnails[i].index = i`. -/
def reindexFrom (r : ℕ) : ℕ → List Thumb → List Thumb
  | _, [] => []
  | i, t :: ts =>
    (if r ≤ i then { t with index := i } else t) :: reindexFrom r (i + 1) ts

/-- `update_thumbnail_indices`. -/
def updateThumbnailIndices (removedIndex : ℕ) (ts : List Thumb) : List Thumb :=
  reindexFrom removedIndex 0 ts

/-- `remove_thumbnail_by_path`: find the first thumbnail with the path,
pop it from the list, and renumber the indices from the removal point on;
silently do nothing when the path is absent.  (The widget recycling and
relayout it also performs do not touch the list structure modelled here.) -/
def removeThumbnailByPath (ts : List Thumb) (p : ℕ) : List Thumb :=
  match findFirstIdx (fun t => decide (t.path = p)) ts with
  | none => ts
  | some i => updateThumbnailIndices i (ts.eraseIdx i)

/-- The thumbnail-container creation of `create_thumbnail_containers`,
starting at index `i`: each path gets a fresh thumbnail carrying its
creation index. -/
def createThumbnails : ℕ → List ℕ → List Thumb
  | _, [] => []
  | i, p :: ps => freshThumb p i :: createThumbnails (i + 1) ps

/-- `registry.get(i).index == i` for every valid `i` (stated over `Fin`
so that concrete instances are decidable). -/
def indicesContiguous (ts : List Thumb) : Prop :=
  ∀ j : Fin ts.length, (ts.get j).index = j.val

instance (ts : List Thumb) : Decidable (indicesContiguous ts) := by
  unfold indicesContiguous; infer_instance

/-- `on_thumbnail_clicked(image_path, thumbnail_index)`: recompute the
index as the first position of the path in `self.image_files` and emit
`image_clicked(path, correct_index)`; emit nothing when the path is no
longer in the list.  The `thumbnail_index` argument is read nowhere. -/
def onThumbnailClickedEmit (imageFiles : List ℕ) (path thumbIndex : ℕ) :
    Option (ℕ × ℕ) :=
  match findFirstIdx (fun fp => decide (fp = path)) imageFiles with
  | some i => some (path, i)
  | none => none

/-- The widget used by the C2 witness: no aspect ratio known. -/
def wC2 : WidgetH := { aspect := none, pixmap := none, fileDims := none }

/-- The widget of the C6 counterexample: aspect ratio 1. -/
def wC6 : WidgetH := { aspect := some 1, pixmap := none, fileDims := none }

/-- Relates a thumbnail to its state after a reclaimer pass: either
untouched, or evicted (which the reclaimer only does to loaded thumbnails
holding a pixmap). -/
def evictedOrSame (t t2 : Thumb) : Prop :=
  t2 = t ∨ (t2 = evictThumb t ∧ t.loaded = true ∧ t.pixmap ≠ none)

/-- The height-relevant widget view of a thumbnail; `fenv` gives the
dimensions PIL would read from the image file at the thumbnail's path. -/
def thumbWidget (fenv : ℕ → Option (ℕ × ℕ)) (t : Thumb) : WidgetH :=
  { aspect := t.aspect, pixmap := t.pixmap, fileDims := fenv t.path }

/-- The layout items of a thumbnail list (every thumbnail has a widget). -/
def thumbsToItems (fenv : ℕ → Option (ℕ × ℕ)) (ts : List Thumb) :
    List (Option WidgetH) :=
  ts.map (fun t => some (thumbWidget fenv t))

/-- A loaded thumbnail holding a pixmap, with known aspect ratio. -/
def tLoaded : Thumb :=
  { freshThumb 5 0 with loaded := true, pixmap := some (100, 100), aspect := some 1 }

/-- The number of positions at which two thumbnail lists differ. -/
def diffCount (l1 l2 : List Thumb) : ℕ :=
  (l1.zip l2).countP (fun p => decide (p.1 ≠ p.2))

/-- The environment of the C9 witness: no cache file exists anywhere. -/
def envC9 : Env := { cacheExists := fun _ => false, cacheDims := fun _ => (1, 1) }

/-- The state of the C9 witness: a loaded thumbnail at position 0 (queued
but no longer needed), a fresh one at position 1, one busy worker, and the
pending queue `[0, 1]`. -/
def sC9 : WState :=
  { thumbs := [tLoaded, freshThumb 1 1], activeWorkers := 1, pending := [0, 1] }

/-- The environment of the C1 run: of the eight images, only path 7 has a
thumbnail-cache file (a valid 100×100 cached pixmap). -/
def envC1 : Env :=
  { cacheExists := fun p => decide (p = 7), cacheDims := fun _ => (100, 100) }

/-- The initial state of the C1 run: eight fresh thumbnails, no worker
active, empty queue — exactly what `set_images` over eight paths yields. -/
def stateC1 : WState :=
  { thumbs := (List.range 8).map (fun k2 => freshThumb k2 k2),
    activeWorkers := 0, pending := [] }

/-! ### Generic list helpers -/

theorem getq_set_self {α : Type} (l : List α) (i : ℕ) (a : α) (h : i < l.length) :
    (l.set i a).get? i = some a := by
  induction l generalizing i with
  | nil => simp at h
  | cons b l ih =>
    cases i with
    | zero => rfl
    | succ i => simpa using ih i (by simpa using h)

theorem getq_set_ne {α : Type} (l : List α) (i j : ℕ) (a : α) (h : i ≠ j) :
    (l.set i a).get? j = l.get? j := by
  induction l generalizing i j with
  | nil => simp
  | cons b l ih =>
    cases i with
    | zero =>
      cases j with
      | zero => exact absurd rfl h
      | succ j => rfl
    | succ i =>
      cases j with
      | zero => rfl
      | succ j => simpa using ih i j (fun hij => h (by rw [hij]))

theorem getq_eraseIdx_lt {α : Type} (l : List α) (i j : ℕ) (h : j < i) :
    (l.eraseIdx i).get? j = l.get? j := by
  induction l generalizing i j with
  | nil => simp
  | cons b l ih =>
    cases i with
    | zero => simp at h
    | succ i =>
      cases j with
      | zero => rfl
      | succ j => simpa [List.eraseIdx] using ih i j (by omega)

theorem countP_replicate {α : Type} (p : α → Bool) (a : α) :
    ∀ n, (List.replicate n a).countP p = if p a then n else 0 := by
  intro n
  induction n with
  | zero => simp
  | succ n ih =>
    rw [List.replicate_succ, List.countP_cons, ih]
    by_cases h : p a <;> simp [h]

/-! ### The first-match search -/

theorem findFirstIdx_none_of {α : Type} (pred : α → Bool) (l : List α)
    (h : ∀ a ∈ l, pred a = false) : findFirstIdx pred l = none := by
  induction l with
  | nil => rfl
  | cons a l ih =>
    have ha : pred a = false := h a (by simp)
    simp [findFirstIdx, ha, ih (fun b hb => h b (by simp [hb]))]

theorem findFirstIdx_append_first {α : Type} (pred : α → Bool) (l1 : List α) (a : α)
    (l2 : List α) (h1 : ∀ b ∈ l1, pred b = false) (ha : pred a = true) :
    findFirstIdx pred (l1 ++ a :: l2) = some l1.length := by
  induction l1 with
  | nil => simp [findFirstIdx, ha]
  | cons b l1 ih =>
    have hb : pred b = false := h1 b (by simp)
    simp [findFirstIdx, hb, ih (fun c hc => h1 c (by simp [hc]))]

theorem findFirstIdx_some_lt {α : Type} (pred : α → Bool) :
    ∀ (l : List α) (i : ℕ), findFirstIdx pred l = some i → i < l.length := by
  intro l
  induction l with
  | nil => intro i h; simp [findFirstIdx] at h
  | cons a l ih =>
    intro i h
    by_cases ha : pred a
    · simp [findFirstIdx, ha] at h
      simp [List.length_cons]
      omega
    · simp [findFirstIdx, ha] at h
      obtain ⟨i2, hi2, hplus⟩ := h
      have := ih i2 hi2
      simp [List.length_cons]
      omega

/-- C10.  When a thumbnail is activated, the emitted item-clicked event
carries the index recomputed as the position of the item's path in the
current image list (first occurrence) — independent of the index stored in
the widget at creation time — and no event is emitted when the path is no
longer present in the image list. -/
theorem c10_click_index_recomputed :
    (∀ (files : List ℕ) (p i1 i2 : ℕ),
      onThumbnailClickedEmit files p i1 = onThumbnailClickedEmit files p i2) ∧
    (∀ (files : List ℕ) (p i : ℕ), p ∉ files →
      onThumbnailClickedEmit files p i = none) ∧
    (∀ (l1 l2 : List ℕ) (p i : ℕ), p ∉ l1 →
      onThumbnailClickedEmit (l1 ++ p :: l2) p i = some (p, l1.length)) := by
  refine ⟨fun _ _ _ _ => rfl, ?_, ?_⟩
  · intro files p i hp
    unfold onThumbnailClickedEmit
    rw [findFirstIdx_none_of _ _ (fun fp hfp => by
      simp only [decide_eq_false_iff_not]
      intro he
      exact hp (he ▸ hfp))]
  · intro l1 l2 p i hp
    unfold onThumbnailClickedEmit
    rw [findFirstIdx_append_first _ _ _ _ (fun b hb => by
      simp only [decide_eq_false_iff_not]
      intro he
      exact hp (he ▸ hb)) (by simp)]

/-- Witness for C10 at a concrete image list: the path 3 occurring first at
position 0 (the stored widget index 99 is ignored). -/
theorem c10_witness : onThumbnailClickedEmit [3, 5, 3] 3 99 = some (3, 0) :=
  c10_click_index_recomputed.2.2 [] [5, 3] 3 99 (by simp)

/-! ### Index renumbering -/

theorem reindexFrom_getq (r : ℕ) :
    ∀ (ts : List Thumb) (i0 j : ℕ),
      (reindexFrom r i0 ts).get? j =
        (ts.get? j).map (fun t => if r ≤ i0 + j then { t with index := i0 + j } else t) := by
  intro ts
  induction ts with
  | nil => intro i0 j; simp [reindexFrom]
  | cons t ts ih =>
    intro i0 j
    cases j with
    | zero => simp [reindexFrom]
    | succ j =>
      have harith : i0 + 1 + j = i0 + (j + 1) := by omega
      simp only [reindexFrom, List.get?_cons_succ, ih (i0 + 1) j, harith]

theorem reindexFrom_map_path (r : ℕ) :
    ∀ (ts : List Thumb) (i0 : ℕ),
      (reindexFrom r i0 ts).map Thumb.path = ts.map Thumb.path := by
  intro ts
  induction ts with
  | nil => intro i0; rfl
  | cons t ts ih => intro i0; simp [reindexFrom, apply_ite Thumb.path, ih]

theorem reindexFrom_length (r : ℕ) :
    ∀ (ts : List Thumb) (i0 : ℕ), (reindexFrom r i0 ts).length = ts.length := by
  intro ts
  induction ts with
  | nil => intro i0; rfl
  | cons t ts ih => intro i0; simp [reindexFrom, ih]

theorem map_eraseIdx_comm {α β : Type} (f : α → β) :
    ∀ (l : List α) (i : ℕ), (l.eraseIdx i).map f = (l.map f).eraseIdx i := by
  intro l
  induction l with
  | nil => intro i; rfl
  | cons a l ih =>
    intro i
    cases i with
    | zero => rfl
    | succ i => simp [List.eraseIdx, ih]

theorem length_eraseIdx_lt {α : Type} :
    ∀ (l : List α) (i : ℕ), i < l.length → (l.eraseIdx i).length = l.length - 1 := by
  intro l
  induction l with
  | nil => intro i h; simp at h
  | cons a l ih =>
    intro i h
    cases i with
    | zero => simp [List.eraseIdx]
    | succ i =>
      have h2 : i < l.length := by simpa using h
      simp [List.eraseIdx, ih i h2]
      omega

theorem createThumbnails_inv_get :
    ∀ (ps : List ℕ) (i j : ℕ) (t : Thumb),
      (createThumbnails i ps).get? j = some t → t.index = i + j := by
  intro ps
  induction ps with
  | nil => intro i j t h; simp [createThumbnails] at h
  | cons p ps ih =>
    intro i j t h
    cases j with
    | zero =>
      simp [createThumbnails, freshThumb] at h
      rw [← h]
      simp
    | succ j =>
      simp only [createThumbnails, List.get?_cons_succ] at h
      have := ih (i + 1) j t h
      omega

theorem indicesContiguous_iff_get (ts : List Thumb) :
    indicesContiguous ts ↔ ∀ (j : ℕ) (t : Thumb), ts.get? j = some t → t.index = j := by
  constructor
  · intro h j t hjt
    rcases List.get?_eq_some.mp hjt with ⟨hj, hget⟩
    rw [← hget]
    exact h ⟨j, hj⟩
  · intro h j
    exact h j.val (ts.get j) (List.get?_eq_get j.isLt)

theorem removeThumbnailByPath_inv (ts : List Thumb) (p : ℕ)
    (h : indicesContiguous ts) : indicesContiguous (removeThumbnailByPath ts p) := by
  rw [indicesContiguous_iff_get] at h ⊢
  unfold removeThumbnailByPath
  cases hfind : findFirstIdx (fun t => decide (t.path = p)) ts with
  | none => exact h
  | some i =>
    intro j t hjt
    unfold updateThumbnailIndices at hjt
    rw [reindexFrom_getq] at hjt
    simp only [Nat.zero_add] at hjt
    cases hcase : (ts.eraseIdx i).get? j with
    | none => rw [hcase] at hjt; exact Option.noConfusion hjt
    | some t0 =>
      rw [hcase] at hjt
      have hjt2 : (if i ≤ j then { t0 with index := j } else t0) = t :=
        Option.some.inj hjt
      by_cases hij : i ≤ j
      · rw [if_pos hij] at hjt2
        rw [← hjt2]
      · rw [if_neg hij] at hjt2
        rw [← hjt2]
        have hjlt : j < i := by omega
        rw [getq_eraseIdx_lt ts i j hjlt] at hcase
        exact h j t0 hcase

/-- C7.  After any sequence of removals starting from a freshly created
registry, entry indices are contiguous (`registry.get(i).index == i` for
every valid `i`); `remove_thumbnail_by_path` on a present path removes
exactly the first entry with that path and renumbers every following
entry, and on an absent path it is a silent no-op. -/
theorem c7_index_contiguity :
    (∀ paths : List ℕ, indicesContiguous (createThumbnails 0 paths)) ∧
    (∀ (ts : List Thumb) (ops : List ℕ), indicesContiguous ts →
      indicesContiguous (ops.foldl removeThumbnailByPath ts)) ∧
    (∀ (ts : List Thumb) (p : ℕ), (∀ t ∈ ts, t.path ≠ p) →
      removeThumbnailByPath ts p = ts) ∧
    (∀ (ts : List Thumb) (p : ℕ) (i : ℕ),
      findFirstIdx (fun t => decide (t.path = p)) ts = some i →
      (removeThumbnailByPath ts p).map Thumb.path = (ts.map Thumb.path).eraseIdx i ∧
      (removeThumbnailByPath ts p).length + 1 = ts.length) := by
  refine ⟨?_, ?_, ?_, ?_⟩
  · intro paths
    rw [indicesContiguous_iff_get]
    intro j t hjt
    have := createThumbnails_inv_get paths 0 j t hjt
    omega
  · intro ts ops
    induction ops generalizing ts with
    | nil => intro h; exact h
    | cons p ops ih =>
      intro h
      exact ih (removeThumbnailByPath ts p) (removeThumbnailByPath_inv ts p h)
  · intro ts p hp
    unfold removeThumbnailByPath
    rw [findFirstIdx_none_of _ _ (fun t ht => by
      simp only [decide_eq_false_iff_not]
      exact hp t ht)]
  · intro ts p i hfind
    have hilt : i < ts.length := findFirstIdx_some_lt _ ts i hfind
    unfold removeThumbnailByPath updateThumbnailIndices
    rw [hfind]
    constructor
    · rw [reindexFrom_map_path, map_eraseIdx_comm]
    · rw [reindexFrom_length, length_eraseIdx_lt ts i hilt]
      omega

/-- Witness for C7: removing path 11 from the registry created over paths
`[10, 11, 12]` leaves indices contiguous. -/
theorem c7_witness :
    indicesContiguous (List.foldl removeThumbnailByPath (createThumbnails 0 [10, 11, 12]) [11]) :=
  c7_index_contiguity.2.1 (createThumbnails 0 [10, 11, 12]) [11] (by decide)

/-! ### The shortest-column selection -/

theorem listMin_min : ∀ (l : List ℤ) (a b : ℤ),
    listMin (min a b) l = min a (listMin b l) := by
  intro l
  induction l with
  | nil => intro a b; rfl
  | cons c l ih =>
    intro a b
    show listMin (min (min a b) c) l = min a (listMin (min b c) l)
    rw [min_assoc, ih]

theorem listMin_cons (a b : ℤ) (l : List ℤ) :
    listMin a (b :: l) = min a (listMin b l) :=
  listMin_min l a b

theorem listMin_le_getD : ∀ (l : List ℤ) (a : ℤ) (j : ℕ), j < l.length + 1 →
    listMin a l ≤ (a :: l).getD j 0 := by
  intro l
  induction l with
  | nil =>
    intro a j hj
    simp only [List.length_nil] at hj
    have hj0 : j = 0 := by omega
    subst hj0
    exact le_refl a
  | cons b l ih =>
    intro a j hj
    cases j with
    | zero =>
      rw [listMin_cons]
      exact min_le_left _ _
    | succ j =>
      rw [listMin_cons]
      calc min a (listMin b l) ≤ listMin b l := min_le_right _ _
        _ ≤ (b :: l).getD j 0 := ih b j (by simpa using hj)
        _ = (a :: b :: l).getD (j + 1) 0 := rfl

theorem idxOfMin_lt_length : ∀ (l : List ℤ) (a : ℤ),
    idxOfMin (a :: l) < (a :: l).length := by
  intro l
  induction l with
  | nil => intro a; simp [idxOfMin]
  | cons b l ih =>
    intro a
    by_cases h : a ≤ listMin b l
    · simp [idxOfMin, h]
    · have := ih b
      simp only [idxOfMin, if_neg h, List.length_cons] at this ⊢
      omega

theorem getD_idxOfMin : ∀ (l : List ℤ) (a : ℤ),
    (a :: l).getD (idxOfMin (a :: l)) 0 = listMin a l := by
  intro l
  induction l with
  | nil => intro a; rfl
  | cons b l ih =>
    intro a
    by_cases h : a ≤ listMin b l
    · rw [listMin_cons, min_eq_left h]
      simp [idxOfMin, h]
    · rw [listMin_cons, min_eq_right (le_of_lt (lt_of_not_le h))]
      have harith : 1 + idxOfMin (b :: l) = idxOfMin (b :: l) + 1 := by omega
      simp only [idxOfMin, if_neg h, harith]
      exact ih b

theorem idxOfMin_first : ∀ (l : List ℤ) (a : ℤ) (j : ℕ), j < idxOfMin (a :: l) →
    (a :: l).getD (idxOfMin (a :: l)) 0 < (a :: l).getD j 0 := by
  intro l
  induction l with
  | nil => intro a j hj; simp [idxOfMin] at hj
  | cons b l ih =>
    intro a j hj
    by_cases h : a ≤ listMin b l
    · simp [idxOfMin, h] at hj
    · have hgd : (a :: b :: l).getD (idxOfMin (a :: b :: l)) 0 = listMin b l := by
        rw [getD_idxOfMin, listMin_cons, min_eq_right (le_of_lt (lt_of_not_le h))]
      rw [hgd]
      simp only [idxOfMin, if_neg h] at hj
      cases j with
      | zero => exact lt_of_not_le h
      | succ j =>
        have hj2 : j < idxOfMin (b :: l) := by omega
        have hlt := ih b j hj2
        rw [getD_idxOfMin] at hlt
        show listMin b l < (b :: l).getD j 0
        exact hlt

/-- The placement loop on a list of items that all have widgets agrees
with the spec's shortest-column recursion over the per-item heights. -/
theorem placeItems_map_some (rx ry spacing colW : ℤ) (vm : VMode)
    (hcache : ℕ → Option ℤ) :
    ∀ (ws : List WidgetH) (k : ℕ) (hs : List ℤ),
      placeItems rx ry spacing colW vm hcache k hs (ws.map some) =
        (specShortestColumn rx ry spacing colW hs
          (itemHeights hcache vm colW k ws)).map some := by
  intro ws
  induction ws with
  | nil => intro k hs; rfl
  | cons w ws ih =>
    intro k hs
    simp only [List.map_cons, placeItems, specShortestColumn, itemHeights, ih]

/-- C2.  The masonry layout places each item, in index order, into the
column whose accumulated height is currently minimal (the first such
column on a tie, which Python's `list.index(min(...))` picks), at position
`(columnX(col), accumulatedHeight(col))`, then bumps that column's height
by `itemHeight + spacing`: `do_layout` refines the spec's shortest-column
recursion over the item heights, and — both sides being Lean functions of
exactly `(config, viewMode, spacing, rect, aspect ratios)` — the layout is
a deterministic function of its inputs.  The second conjunct checks the
chosen column really attains the minimum accumulated height, strictly
below every earlier column. -/
theorem c2_shortest_column_refinement :
    (∀ (cfgW cfgG : ℤ) (vm : VMode) (spacing rx ry rw : ℤ) (ws : List WidgetH)
        (hcache : ℕ → Option ℤ) (columns colW : ℤ),
      columns = computeColumns (if vm = VMode.waterfall then cfgW else cfgG)
        (if vm = VMode.waterfall then 150 else 100) spacing (rw - 20) →
      colW = Int.fdiv ((rw - 20) - (columns + 1) * spacing) columns →
      1 ≤ columns →
      doLayout cfgW cfgG vm spacing rx ry rw (ws.map some) hcache =
        some ((specShortestColumn rx ry spacing colW
          (List.replicate columns.toNat spacing)
          (itemHeights hcache vm colW 0 ws)).map some)) ∧
    (∀ (a : ℤ) (l : List ℤ),
      idxOfMin (a :: l) < (a :: l).length ∧
      (∀ j, j < (a :: l).length →
        (a :: l).getD (idxOfMin (a :: l)) 0 ≤ (a :: l).getD j 0) ∧
      (∀ j, j < idxOfMin (a :: l) →
        (a :: l).getD (idxOfMin (a :: l)) 0 < (a :: l).getD j 0)) := by
  constructor
  · intro cfgW cfgG vm spacing rx ry rw ws hcache columns colW hcol hw hpos
    by_cases hws : ws = []
    · subst hws
      simp [doLayout, itemHeights, specShortestColumn]
    · have hne : ws.map some ≠ ([] : List (Option WidgetH)) := by
        simpa using hws
      simp only [doLayout, if_neg hne, ← hcol, ← hw, if_pos (by omega : (0:ℤ) < columns)]
      exact congrArg some (placeItems_map_some rx ry spacing colW vm hcache ws 0 _)
  · intro a l
    refine ⟨idxOfMin_lt_length l a, ?_, idxOfMin_first l a⟩
    intro j hj
    rw [getD_idxOfMin]
    exact listMin_le_getD l a j (by simpa using hj)

/-- Witness for C2 at a concrete grid-mode layout of three items in a
500-wide rect (4 columns of width 107). -/
theorem c2_witness :
    doLayout 4 6 VMode.grid 10 0 0 500 ([wC2, wC2, wC2].map some) (fun _ => none) =
      some ((specShortestColumn 0 0 10 107
        (List.replicate (Int.toNat 4) 10)
        (itemHeights (fun _ => none) VMode.grid 107 0 [wC2, wC2, wC2])).map some) :=
  c2_shortest_column_refinement.1 4 6 VMode.grid 10 0 0 500 [wC2, wC2, wC2]
    (fun _ => none) 4 107 (by decide) (by decide) (by decide)

/-! ### Degenerate geometry -/

theorem placeItems_single_col (rx ry spacing colW : ℤ) (vm : VMode)
    (hcache : ℕ → Option ℤ) :
    ∀ (ws : List WidgetH) (k : ℕ) (a : ℤ),
      (placeItems rx ry spacing colW vm hcache k [a] (ws.map some)).length = ws.length ∧
      ∀ os ∈ placeItems rx ry spacing colW vm hcache k [a] (ws.map some),
        ∃ slot, os = some slot ∧ slot.x = rx + spacing := by
  intro ws
  induction ws with
  | nil => intro k a; exact ⟨rfl, by simp [placeItems]⟩
  | cons w ws ih =>
    intro k a
    simp only [List.map_cons, placeItems, idxOfMin]
    constructor
    · simpa using (ih (k + 1) _).1
    · intro os hos
      rcases List.mem_cons.mp hos with h | h
      · exact ⟨_, h, by simp⟩
      · exact (ih (k + 1) _).2 os h

theorem fdiv_lt_one_of_neg {aw d : ℤ} (haw : aw < 0) (hd : 0 < d) :
    Int.fdiv aw d < 1 := by
  rw [Int.fdiv_eq_ediv aw (le_of_lt hd)]
  by_contra hcon
  have h1 : 1 ≤ aw / d := by omega
  have := (Int.le_ediv_iff_mul_le hd).mp h1
  omega

/-- C6 (amended).  For every container rectangle with zero or negative
width, `do_layout` raises no error and falls back to a single column: it
places every item, all at x-offset `rect.x() + spacing` (column 0), with
the computed — possibly non-positive — column width; the layout is not
empty when the item list is not. -/
theorem c6_zero_width_amended :
    ∀ (cfgW cfgG : ℤ) (vm : VMode) (spacing rx ry rw : ℤ) (ws : List WidgetH)
      (hcache : ℕ → Option ℤ),
      rw ≤ 0 → 0 ≤ spacing → 1 ≤ cfgW → 1 ≤ cfgG →
      ∃ slots,
        doLayout cfgW cfgG vm spacing rx ry rw (ws.map some) hcache = some slots ∧
        slots.length = ws.length ∧
        ∀ os ∈ slots, ∃ slot, os = some slot ∧ slot.x = rx + spacing := by
  intro cfgW cfgG vm spacing rx ry rw ws hcache hrw hsp hcw hcg
  by_cases hws : ws = []
  · subst hws
    exact ⟨[], by simp [doLayout], rfl, by simp⟩
  · have hne : ws.map some ≠ ([] : List (Option WidgetH)) := by simpa using hws
    have hcfg : 1 ≤ (if vm = VMode.waterfall then cfgW else cfgG) := by
      by_cases h : vm = VMode.waterfall <;> simp [h, hcw, hcg]
    have hmcw : (100 : ℤ) ≤ (if vm = VMode.waterfall then 150 else 100) := by
      by_cases h : vm = VMode.waterfall <;> simp [h]
    have hd : (0 : ℤ) < (if vm = VMode.waterfall then (150:ℤ) else 100) + spacing := by
      omega
    have haw : rw - 20 < 0 := by omega
    have hfd := fdiv_lt_one_of_neg haw hd
    have hcols : computeColumns (if vm = VMode.waterfall then cfgW else cfgG)
        (if vm = VMode.waterfall then 150 else 100) spacing (rw - 20) = 1 := by
      unfold computeColumns
      rw [max_eq_left (by omega), min_eq_right hcfg]
    refine ⟨placeItems rx ry spacing (Int.fdiv ((rw - 20) - (1 + 1) * spacing) 1)
        vm hcache 0 [spacing] (ws.map some), ?_, ?_, ?_⟩
    · simp only [doLayout, if_neg hne, hcols, if_pos (by omega : (0:ℤ) < 1)]
      rfl
    · exact (placeItems_single_col rx ry spacing _ vm hcache ws 0 spacing).1
    · exact (placeItems_single_col rx ry spacing _ vm hcache ws 0 spacing).2

/-- Counterexample to C6 as stated: on a rect of width 0 with one item,
`do_layout` is not empty — it places the item (at a nonsensical negative
column width), rather than placing nothing. -/
theorem c6_zero_width_counterexample :
    doLayout 4 6 VMode.waterfall 10 0 0 0 [some wC6] (fun _ => none) =
      some [some ⟨10, 10, -40, -35⟩] ∧
    List.countP (fun os => os.isSome) [some (⟨10, 10, -40, -35⟩ : Slot)] ≠ 0 := by
  constructor
  · have hcol : computeColumns 4 150 10 (-20) = 1 := by decide
    have hfd : Int.fdiv (-20 - (1 + 1) * 10) 1 = -40 := by decide
    have hcalc : calculateItemHeight none VMode.waterfall
        { aspect := some 1, pixmap := none, fileDims := none } (-40) = -35 := by
      show pyInt ((-40 : ℚ) * 1) + 5 = -35
      norm_num [pyInt]
    simp only [doLayout]
    norm_num [placeItems, idxOfMin, hcol, hfd, hcalc, wC6]
  · decide

/-- Witness for C6 (amended) at a concrete zero-width rect with one item. -/
theorem c6_witness :
    ∃ slots,
      doLayout 4 6 VMode.waterfall 10 0 0 0 ([wC6].map some) (fun _ => none) = some slots ∧
      slots.length = [wC6].length ∧
      ∀ os ∈ slots, ∃ slot, os = some slot ∧ slot.x = 0 + 10 :=
  c6_zero_width_amended 4 6 VMode.waterfall 10 0 0 0 [wC6] (fun _ => none)
    (by decide) (by decide) (by decide) (by decide)

/-- C5 (amended).  The chosen column count is
`min(configuredMax, max(1, availableWidth // (minColumnWidth + spacing)))`:
at least 1 (the fallback when the width fits no column), at most the
configured maximum, satisfying `k * (minColumnWidth + spacing) ≤ availableWidth`
whenever it is not the fallback 1, and at least every `k ≤ configuredMax`
satisfying that inequality — i.e. the largest such `k`, clipped to
`[1, configuredMax]`.  (The code's inequality has `k * spacing`, not the
spec's `(k+1) * spacing`.) -/
theorem c5_column_count_amended :
    ∀ (cfg minColW spacing aw : ℤ), 1 ≤ cfg → 0 < minColW + spacing →
      1 ≤ computeColumns cfg minColW spacing aw ∧
      computeColumns cfg minColW spacing aw ≤ cfg ∧
      (computeColumns cfg minColW spacing aw = 1 ∨
        computeColumns cfg minColW spacing aw * (minColW + spacing) ≤ aw) ∧
      (∀ k : ℤ, k ≤ cfg → k * (minColW + spacing) ≤ aw →
        k ≤ computeColumns cfg minColW spacing aw) := by
  intro cfg minColW spacing aw hcfg hd
  unfold computeColumns
  rw [Int.fdiv_eq_ediv aw (le_of_lt hd)]
  refine ⟨le_min hcfg (le_max_left _ _), min_le_left _ _, ?_, ?_⟩
  · by_cases he : 1 ≤ aw / (minColW + spacing)
    · right
      have hmax : max 1 (aw / (minColW + spacing)) = aw / (minColW + spacing) :=
        max_eq_right he
      rw [hmax]
      calc min cfg (aw / (minColW + spacing)) * (minColW + spacing)
          ≤ aw / (minColW + spacing) * (minColW + spacing) := by
            apply mul_le_mul_of_nonneg_right (min_le_right _ _) (le_of_lt hd)
        _ ≤ aw := Int.ediv_mul_le aw (by omega)
    · left
      have hmax : max 1 (aw / (minColW + spacing)) = 1 := max_eq_left (by omega)
      rw [hmax, min_eq_right hcfg]
  · intro k hk hkk
    have hke : k ≤ aw / (minColW + spacing) := (Int.le_ediv_iff_mul_le hd).mpr hkk
    exact le_min hk (le_trans hke (le_max_right _ _))

/-- Witness for C5 (amended) at the concrete geometry of the
counterexample (available width 320, waterfall mode). -/
theorem c5_witness :
    1 ≤ computeColumns 4 150 10 320 ∧
    computeColumns 4 150 10 320 ≤ 4 ∧
    (computeColumns 4 150 10 320 = 1 ∨ computeColumns 4 150 10 320 * (150 + 10) ≤ 320) ∧
    (∀ k : ℤ, k ≤ 4 → k * (150 + 10) ≤ 320 → k ≤ computeColumns 4 150 10 320) :=
  c5_column_count_amended 4 150 10 320 (by decide) (by decide)

/-- Counterexample to C5 as stated: with available width 320 (a 340-wide
rect), minimum column width 150 and spacing 10, the code chooses
`320 // 160 = 2` columns, but `2 * 150 + 3 * 10 = 330 > 320` violates the
spec's inequality, whose largest admissible count is 1. -/
theorem c5_column_count_counterexample :
    computeColumns 4 150 10 320 = 2 ∧
    ¬ ((2 : ℤ) * 150 + (2 + 1) * 10 ≤ 320) ∧
    specColumnCount 4 150 10 320 = 1 ∧
    (2 : ℤ) ≠ 1 := by
  refine ⟨by decide, by decide, ?_, by decide⟩
  decide

/-- C4 (amended).  Item heights: in grid mode, `columnWidth + 5` regardless
of aspect ratio; in masonry mode with a known (cached) aspect ratio,
`int(columnWidth * aspectRatio) + 5` where `int` truncates (not rounds) and
the stored ratio was already clamped to `[0.6, 1.8]` when the thumbnail was
cached (`cache_image_size`); in masonry mode with a ratio derived on the
spot from the pixmap, the ratio is clamped to `[0.4, 2.5]`; with no ratio
available at all, the default factor 1.2 applies, again truncated. -/
theorem c4_item_height_amended :
    (∀ (w : WidgetH) (colW : ℤ),
      calculateItemHeight none VMode.grid w colW = colW + 5) ∧
    (∀ (w : WidgetH) (colW : ℤ) (r : ℚ), w.aspect = some r →
      calculateItemHeight none VMode.waterfall w colW = pyInt ((colW : ℚ) * r) + 5) ∧
    (∀ (t : Thumb) (pw ph : ℕ), 0 < pw →
      (cacheImageSize t pw ph).aspect =
        some (clampQ (3/5) (9/5) ((ph : ℚ) / (pw : ℚ)))) ∧
    (∀ (w : WidgetH) (colW : ℤ) (pw ph : ℕ),
      w.aspect = none → w.pixmap = some (pw, ph) → 0 < pw →
      calculateItemHeight none VMode.waterfall w colW =
        pyInt ((colW : ℚ) * clampQ (2/5) (5/2) ((ph : ℚ) / (pw : ℚ))) + 5) ∧
    (∀ (w : WidgetH) (colW : ℤ),
      w.aspect = none → w.pixmap = none → w.fileDims = none →
      calculateItemHeight none VMode.waterfall w colW =
        pyInt ((colW : ℚ) * (6/5)) + 5) := by
  refine ⟨fun w colW => rfl, ?_, ?_, ?_, ?_⟩
  · intro w colW r h
    obtain ⟨asp, pm, fd⟩ := w
    simp only at h
    subst h
    rfl
  · intro t pw ph hpw
    simp [cacheImageSize, if_pos hpw]
  · intro w colW pw ph ha hp hpw
    obtain ⟨asp, pm, fd⟩ := w
    simp only at ha hp
    subst ha
    subst hp
    simp [calculateItemHeight, hpw]
  · intro w colW ha hp hf
    obtain ⟨asp, pm, fd⟩ := w
    simp only at ha hp hf
    subst ha
    subst hp
    subst hf
    rfl

/-- Witness for C4 (amended): a thumbnail with cached ratio 1 at column
width 100 gets height `int(100 * 1) + 5`. -/
theorem c4_witness :
    calculateItemHeight none VMode.waterfall
      { aspect := some 1, pixmap := none, fileDims := none } 100 =
      pyInt ((100 : ℚ) * 1) + 5 :=
  c4_item_height_amended.2.1 { aspect := some 1, pixmap := none, fileDims := none }
    100 1 rfl

/-- Counterexample to C4 as stated: (i) at column width 100 and stored
ratio 0.708 the code computes `int(70.8) + 5 = 75`, while the claimed
`round(...)` gives 76; (ii) a 100×200 pixmap (true ratio 2.0, inside the
claimed clamp range [0.4, 2.5]) is stored by `cache_image_size` clamped to
1.8, so its height is 185, not the claimed `round(100 * 2.0) + 5 = 205`. -/
theorem c4_round_counterexample :
    calculateItemHeight none VMode.waterfall
      { aspect := some (177/250), pixmap := none, fileDims := none } 100 = 75 ∧
    specMasonryHeight 100 (177/250) = 76 ∧
    (75 : ℤ) ≠ 76 ∧
    (cacheImageSize (freshThumb 0 0) 100 200).aspect = some (9/5) ∧
    calculateItemHeight none VMode.waterfall
      { aspect := some (9/5), pixmap := none, fileDims := none } 100 = 185 ∧
    specMasonryHeight 100 ((200 : ℚ) / 100) = 205 ∧
    (185 : ℤ) ≠ 205 := by
  refine ⟨?_, ?_, by decide, ?_, ?_, ?_, by decide⟩
  · show pyInt ((100 : ℚ) * (177/250)) + 5 = 75
    norm_num [pyInt]
  · norm_num [specMasonryHeight, qRound, clampQ]
  · simp [cacheImageSize, freshThumb, clampQ]
    norm_num
  · show pyInt ((100 : ℚ) * (9/5)) + 5 = 185
    norm_num [pyInt]
  · norm_num [specMasonryHeight, qRound, clampQ]

/-! ### Eviction and geometry -/

theorem forall2_eos_refl : ∀ ts : List Thumb, List.Forall₂ evictedOrSame ts ts := by
  intro ts
  induction ts with
  | nil => exact List.Forall₂.nil
  | cons t ts ih => exact List.Forall₂.cons (Or.inl rfl) ih

theorem cleanupLoop_forall2 (protS protE : ℕ) :
    ∀ (ts : List Thumb) (i c : ℕ),
      List.Forall₂ evictedOrSame ts (cleanupLoop protS protE i c ts) := by
  intro ts
  induction ts with
  | nil => intro i c; exact List.Forall₂.nil
  | cons t ts ih =>
    intro i c
    by_cases hcond : (i < protS ∨ protE ≤ i) ∧ t.loaded = true ∧ t.pixmap ≠ none
    · by_cases hbreak : 100 ≤ c + 1
      · simp only [cleanupLoop, if_pos hcond, if_pos hbreak]
        exact List.Forall₂.cons (Or.inr ⟨rfl, hcond.2.1, hcond.2.2⟩) (forall2_eos_refl ts)
      · simp only [cleanupLoop, if_pos hcond, if_neg hbreak]
        exact List.Forall₂.cons (Or.inr ⟨rfl, hcond.2.1, hcond.2.2⟩) (ih (i + 1) (c + 1))
    · simp only [cleanupLoop, if_neg hcond]
      exact List.Forall₂.cons (Or.inl rfl) (ih (i + 1) c)

theorem forall2_getq {R : Thumb → Thumb → Prop} :
    ∀ {l1 l2 : List Thumb}, List.Forall₂ R l1 l2 → ∀ j : ℕ,
      (l1.get? j = none ∧ l2.get? j = none) ∨
      ∃ t1 t2, l1.get? j = some t1 ∧ l2.get? j = some t2 ∧ R t1 t2 := by
  intro l1 l2 h
  induction h with
  | nil => intro j; left; exact ⟨rfl, rfl⟩
  | cons hr ht ih =>
    intro j
    cases j with
    | zero => right; exact ⟨_, _, rfl, rfl, hr⟩
    | succ j => exact ih j

/-- Congruence of the placement loop: items related pointwise — equal, or
both widgets with equal computed heights — place identically. -/
theorem placeItems_congr (rx ry spacing colW : ℤ) (vm : VMode)
    (hcache : ℕ → Option ℤ) :
    ∀ {l1 l2 : List (Option WidgetH)},
      List.Forall₂ (fun o1 o2 => o1 = o2 ∨ ∃ w1 w2, o1 = some w1 ∧ o2 = some w2 ∧
        ∀ (ch : Option ℤ) (vm2 : VMode) (cW : ℤ),
          calculateItemHeight ch vm2 w1 cW = calculateItemHeight ch vm2 w2 cW) l1 l2 →
      ∀ (k : ℕ) (hs : List ℤ),
        placeItems rx ry spacing colW vm hcache k hs l1 =
        placeItems rx ry spacing colW vm hcache k hs l2 := by
  intro l1 l2 h
  induction h with
  | nil => intro k hs; rfl
  | @cons a b l₁ l₂ hr ht ih =>
    intro k hs
    rcases hr with heq | ⟨w1, w2, hw1, hw2, hh⟩
    · subst heq
      cases a with
      | none => simp only [placeItems, ih]
      | some w => simp only [placeItems, ih]
    · subst hw1
      subst hw2
      simp only [placeItems, hh (hcache k) vm colW, ih]

/-- Congruence of `do_layout` under the same pointwise item relation. -/
theorem doLayout_congr (cfgW cfgG : ℤ) (vm : VMode) (spacing rx ry rw : ℤ)
    (hcache : ℕ → Option ℤ) {l1 l2 : List (Option WidgetH)}
    (h : List.Forall₂ (fun o1 o2 => o1 = o2 ∨ ∃ w1 w2, o1 = some w1 ∧ o2 = some w2 ∧
      ∀ (ch : Option ℤ) (vm2 : VMode) (cW : ℤ),
        calculateItemHeight ch vm2 w1 cW = calculateItemHeight ch vm2 w2 cW) l1 l2) :
    doLayout cfgW cfgG vm spacing rx ry rw l1 hcache =
    doLayout cfgW cfgG vm spacing rx ry rw l2 hcache := by
  by_cases h1 : l1 = []
  · have hl := h.length_eq
    rw [h1] at hl
    have h2 : l2 = [] := List.length_eq_zero.mp hl.symm
    rw [h1, h2]
  · have h2 : l2 ≠ [] := by
      intro hc
      apply h1
      have hl := h.length_eq
      rw [hc] at hl
      exact List.length_eq_zero.mp hl
    simp only [doLayout, if_neg h1, if_neg h2]
    exact if_congr Iff.rfl
      (congrArg some (placeItems_congr rx ry spacing _ vm hcache h 0 _)) rfl

theorem eos_items_rel (fenv : ℕ → Option (ℕ × ℕ)) :
    ∀ {ts ts2 : List Thumb}, List.Forall₂ evictedOrSame ts ts2 →
      (∀ t ∈ ts, t.loaded = true → t.pixmap ≠ none → t.aspect ≠ none) →
      List.Forall₂ (fun o1 o2 => o1 = o2 ∨ ∃ w1 w2, o1 = some w1 ∧ o2 = some w2 ∧
        ∀ (ch : Option ℤ) (vm2 : VMode) (cW : ℤ),
          calculateItemHeight ch vm2 w1 cW = calculateItemHeight ch vm2 w2 cW)
        (thumbsToItems fenv ts2) (thumbsToItems fenv ts) := by
  intro ts ts2 h
  induction h with
  | nil => intro hinv; exact List.Forall₂.nil
  | @cons t t2 tts tts2 hr ht ih =>
    intro hinv
    have htail := ih (fun u hu => hinv u (List.mem_cons_of_mem t hu))
    refine List.Forall₂.cons ?_ htail
    rcases hr with heq | ⟨heq, hld, hpm⟩
    · left
      rw [heq]
    · right
      refine ⟨thumbWidget fenv t2, thumbWidget fenv t, rfl, rfl, ?_⟩
      have haspect : t.aspect ≠ none := hinv t (List.mem_cons_self t tts) hld hpm
      obtain ⟨r, hr2⟩ : ∃ r, t.aspect = some r := by
        cases hasp : t.aspect with
        | none => exact absurd hasp haspect
        | some r => exact ⟨r, rfl⟩
      intro ch vm2 cW
      cases ch with
      | some hh2 => rfl
      | none =>
        cases vm2 with
        | grid => rfl
        | waterfall =>
          subst heq
          simp only [thumbWidget, evictThumb]
          rw [hr2]
          rfl

/-- C3.  Evicting an entry's bitmap changes neither its `aspectRatio` nor
the layout computed for it or for any other entry: a Memory Reclaimer pass
only turns thumbnails into their evicted form (first conjunct), and for any
such transformation of a registry in which every loaded-with-bitmap entry
has a known aspect ratio (true of every entry the reclaimer may evict,
since `cache_image_size` runs on every load), all aspect ratios are
preserved and a fresh `do_layout` over the post-eviction registry equals
the one over the pre-eviction registry, for every geometry, view mode and
height cache. -/
theorem c3_eviction_preserves_geometry :
    (∀ (ts : List Thumb) (vs ve : ℕ),
      List.Forall₂ evictedOrSame ts (cleanupInvisibleImages ts vs ve)) ∧
    (∀ (ts ts2 : List Thumb), List.Forall₂ evictedOrSame ts ts2 →
      (∀ t ∈ ts, t.loaded = true → t.pixmap ≠ none → t.aspect ≠ none) →
      (∀ j : ℕ, (ts2.get? j).map Thumb.aspect = (ts.get? j).map Thumb.aspect) ∧
      (∀ (cfgW cfgG : ℤ) (vm : VMode) (spacing rx ry rwid : ℤ)
          (fenv : ℕ → Option (ℕ × ℕ)) (hcache : ℕ → Option ℤ),
        doLayout cfgW cfgG vm spacing rx ry rwid (thumbsToItems fenv ts2) hcache =
        doLayout cfgW cfgG vm spacing rx ry rwid (thumbsToItems fenv ts) hcache)) := by
  constructor
  · intro ts vs ve
    unfold cleanupInvisibleImages
    by_cases h0 : ts = []
    · rw [if_pos h0]
      exact forall2_eos_refl ts
    · rw [if_neg h0]
      by_cases h1 : loadedCount ts < 2000
      · rw [if_pos h1]
        exact forall2_eos_refl ts
      · rw [if_neg h1]
        exact cleanupLoop_forall2 _ _ ts 0 0
  · intro ts ts2 heos hinv
    constructor
    · intro j
      rcases forall2_getq heos j with ⟨h1, h2⟩ | ⟨t1, t2, h1, h2, hr⟩
      · rw [h1, h2]
      · rw [h1, h2]
        rcases hr with heq | ⟨heq, _, _⟩
        · rw [heq]
        · rw [heq]
          rfl
    · intro cfgW cfgG vm spacing rx ry rwid fenv hcache
      exact doLayout_congr cfgW cfgG vm spacing rx ry rwid hcache
        (eos_items_rel fenv heos hinv)

/-- Witness for C3 at a concrete one-entry registry whose entry is
actually evicted: the aspect ratio is unchanged. -/
theorem c3_witness :
    ([evictThumb tLoaded].get? 0).map Thumb.aspect = ([tLoaded].get? 0).map Thumb.aspect :=
  (c3_eviction_preserves_geometry.2 [tLoaded] [evictThumb tLoaded]
    (List.Forall₂.cons (Or.inr ⟨rfl, rfl, by decide⟩) List.Forall₂.nil)
    (fun t ht _ _ => by
      rw [List.mem_singleton.mp ht]
      decide)).1 0

/-! ### The Memory Reclaimer's bounds -/

theorem diffCount_refl : ∀ ts : List Thumb, diffCount ts ts = 0 := by
  intro ts
  induction ts with
  | nil => rfl
  | cons t ts ih =>
    simp only [diffCount] at ih
    simp only [diffCount, List.zip_cons_cons, List.countP_cons, ih]
    simp

theorem cleanupLoop_length (protS protE : ℕ) :
    ∀ (ts : List Thumb) (i c : ℕ), (cleanupLoop protS protE i c ts).length = ts.length := by
  intro ts
  induction ts with
  | nil => intro i c; rfl
  | cons t ts ih =>
    intro i c
    by_cases hcond : (i < protS ∨ protE ≤ i) ∧ t.loaded = true ∧ t.pixmap ≠ none
    · by_cases hbreak : 100 ≤ c + 1
      · simp only [cleanupLoop]
        rw [if_pos hcond, if_pos hbreak]
        simp
      · simp only [cleanupLoop]
        rw [if_pos hcond, if_neg hbreak]
        simp [ih]
    · simp only [cleanupLoop]
      rw [if_neg hcond]
      simp [ih]

theorem cleanupLoop_protected (protS protE : ℕ) :
    ∀ (ts : List Thumb) (i c k : ℕ), protS ≤ i + k → i + k < protE →
      (cleanupLoop protS protE i c ts).get? k = ts.get? k := by
  intro ts
  induction ts with
  | nil => intro i c k h1 h2; rfl
  | cons t ts ih =>
    intro i c k h1 h2
    by_cases hcond : (i < protS ∨ protE ≤ i) ∧ t.loaded = true ∧ t.pixmap ≠ none
    · cases k with
      | zero =>
        exfalso
        rcases hcond.1 with hlt | hge <;> omega
      | succ j =>
        by_cases hbreak : 100 ≤ c + 1
        · simp only [cleanupLoop, if_pos hcond, if_pos hbreak, List.get?_cons_succ]
        · simp only [cleanupLoop, if_pos hcond, if_neg hbreak, List.get?_cons_succ]
          exact ih (i + 1) (c + 1) j (by omega) (by omega)
    · cases k with
      | zero => simp only [cleanupLoop, if_neg hcond, List.get?_cons_zero]
      | succ j =>
        simp only [cleanupLoop, if_neg hcond, List.get?_cons_succ]
        exact ih (i + 1) c j (by omega) (by omega)

theorem cleanupLoop_diff_le (protS protE : ℕ) :
    ∀ (ts : List Thumb) (i c : ℕ), c < 100 →
      diffCount ts (cleanupLoop protS protE i c ts) ≤ 100 - c := by
  intro ts
  induction ts with
  | nil => intro i c hc; simp [diffCount, cleanupLoop]
  | cons t ts ih =>
    intro i c hc
    by_cases hcond : (i < protS ∨ protE ≤ i) ∧ t.loaded = true ∧ t.pixmap ≠ none
    · by_cases hbreak : 100 ≤ c + 1
      · simp only [cleanupLoop]
        rw [if_pos hcond, if_pos hbreak]
        simp only [diffCount, List.zip_cons_cons, List.countP_cons]
        have h0 : (ts.zip ts).countP (fun p => decide (p.1 ≠ p.2)) = 0 := by
          have := diffCount_refl ts
          simpa [diffCount] using this
        have hxle : (if decide (t ≠ evictThumb t) = true then 1 else 0) ≤ 1 := by
          split <;> omega
        omega
      · simp only [cleanupLoop]
        rw [if_pos hcond, if_neg hbreak]
        simp only [diffCount, List.zip_cons_cons, List.countP_cons]
        have hrec := ih (i + 1) (c + 1) (by omega)
        simp only [diffCount] at hrec
        have hxle : (if decide (t ≠ evictThumb t) = true then 1 else 0) ≤ 1 := by
          split <;> omega
        omega
    · simp only [cleanupLoop]
      rw [if_neg hcond]
      simp only [diffCount, List.zip_cons_cons, List.countP_cons]
      have hrec := ih (i + 1) c hc
      simp only [diffCount] at hrec
      have hxle : (if decide (t ≠ t) = true then 1 else 0) = 0 := by
        simp
      omega

theorem cleanupLoop_cons_evict {protS protE i c : ℕ} {t : Thumb} (ts : List Thumb)
    (hcond : (i < protS ∨ protE ≤ i) ∧ t.loaded = true ∧ t.pixmap ≠ none)
    (hbreak : ¬ 100 ≤ c + 1) :
    cleanupLoop protS protE i c (t :: ts) =
      evictThumb t :: cleanupLoop protS protE (i + 1) (c + 1) ts := by
  simp only [cleanupLoop]
  rw [if_pos hcond, if_neg hbreak]

/-- C8 (amended).  A Memory Reclaimer pass does nothing while fewer than
2000 entries are loaded (the code acts from 2000 on, i.e. at *at least* the
threshold, not strictly above it); when it acts it never touches an entry
whose index lies in the protected zone `[max(0, first − 150), lastVisible + 150]`
(with `ve` the exclusive end of the visible range, the zone is
`[vs − 150, ve + 150)`); and it changes at most 100 entries in one pass. -/
theorem c8_reclaimer_amended :
    ∀ (ts : List Thumb) (vs ve : ℕ),
      (loadedCount ts < 2000 → cleanupInvisibleImages ts vs ve = ts) ∧
      (∀ k : ℕ, vs - 150 ≤ k → k < ve + 150 →
        (cleanupInvisibleImages ts vs ve).get? k = ts.get? k) ∧
      diffCount ts (cleanupInvisibleImages ts vs ve) ≤ 100 := by
  intro ts vs ve
  refine ⟨?_, ?_, ?_⟩
  · intro h
    unfold cleanupInvisibleImages
    by_cases h0 : ts = []
    · rw [if_pos h0]
    · rw [if_neg h0, if_pos h]
  · intro k h1 h2
    unfold cleanupInvisibleImages
    by_cases h0 : ts = []
    · rw [if_pos h0]
    · rw [if_neg h0]
      by_cases hth : loadedCount ts < 2000
      · rw [if_pos hth]
      · rw [if_neg hth]
        by_cases hk : k < ts.length
        · exact cleanupLoop_protected (vs - 150) (min ts.length (ve + 150)) ts 0 0 k
            (by omega) (by omega)
        · have hlen2 : (cleanupLoop (vs - 150) (min ts.length (ve + 150)) 0 0 ts).length
              = ts.length := cleanupLoop_length _ _ ts 0 0
          rw [List.get?_eq_none.mpr (show ts.length ≤ k by omega)]
          rw [List.get?_eq_none.mpr (show (cleanupLoop (vs - 150)
            (min ts.length (ve + 150)) 0 0 ts).length ≤ k by rw [hlen2]; omega)]
  · unfold cleanupInvisibleImages
    by_cases h0 : ts = []
    · rw [if_pos h0]
      rw [diffCount_refl]
      omega
    · rw [if_neg h0]
      by_cases hth : loadedCount ts < 2000
      · rw [if_pos hth, diffCount_refl]
        omega
      · rw [if_neg hth]
        have := cleanupLoop_diff_le (vs - 150) (min ts.length (ve + 150)) ts 0 0
          (by omega)
        omega

/-- Witness for C8 (amended): a one-entry registry is far below the
threshold, so a reclaimer pass leaves it untouched. -/
theorem c8_witness : cleanupInvisibleImages [tLoaded] 0 0 = [tLoaded] :=
  (c8_reclaimer_amended [tLoaded] 0 0).1 (by decide)

/-- Counterexample to C8 as stated: with exactly 2000 loaded entries — a
count that does not *exceed* the threshold 2000 — the reclaimer does evict
(a pass over `replicate 2000 tLoaded` with visible range `(2000, 2000)`
evicts entry 0). -/
theorem c8_threshold_counterexample :
    loadedCount (List.replicate 2000 tLoaded) = 2000 ∧
    (cleanupInvisibleImages (List.replicate 2000 tLoaded) 2000 2000).get? 0 =
      some (evictThumb tLoaded) ∧
    evictThumb tLoaded ≠ tLoaded := by
  have hcnt : loadedCount (List.replicate 2000 tLoaded) = 2000 := by
    unfold loadedCount
    rw [countP_replicate]
    rfl
  refine ⟨hcnt, ?_, by decide⟩
  unfold cleanupInvisibleImages
  have hlen : (List.replicate 2000 tLoaded).length = 2000 :=
    List.length_replicate 2000 tLoaded
  have hne : List.replicate 2000 tLoaded ≠ [] := by
    intro h
    rw [h] at hlen
    exact absurd hlen (by decide)
  rw [if_neg hne, if_neg (by rw [hcnt]; decide)]
  rw [hlen]
  rw [show (List.replicate 2000 tLoaded) = tLoaded :: List.replicate 1999 tLoaded from
    by rw [show (2000 : ℕ) = 1999 + 1 from rfl, List.replicate_succ]]
  rw [cleanupLoop_cons_evict (List.replicate 1999 tLoaded)
    ⟨Or.inl (by decide), by decide, by decide⟩ (by decide)]
  rfl

/-! ### The load scheduler queue -/

theorem pendingLoop_fifo (env : Env) :
    ∀ (skips : List ℕ) (fuel : ℕ) (s : WState) (j : ℕ) (rest : List ℕ) (tj : Thumb),
      s.pending = skips ++ j :: rest →
      (∀ k ∈ skips, ∀ tk, s.thumbs.get? k = some tk →
        tk.loaded = true ∨ tk.loading = true) →
      s.thumbs.get? j = some tj →
      tj.loaded = false → tj.loading = false →
      env.cacheExists tj.path = false →
      s.activeWorkers < maxConcurrentWorkers →
      skips.length + 1 ≤ fuel →
      pendingLoop env fuel s =
        { thumbs := s.thumbs.set j { tj with loading := true, text := TextState.loadingMsg },
          activeWorkers := s.activeWorkers + 1,
          pending := rest } := by
  intro skips
  induction skips with
  | nil =>
    intro fuel s j rest tj hp hskips hj hld hlg hc hact hfuel
    cases fuel with
    | zero => omega
    | succ f =>
      simp only [List.nil_append] at hp
      simp only [pendingLoop, hp]
      rw [if_pos hact]
      have hj2 : ({ s with pending := rest } : WState).thumbs.get? j = some tj := hj
      rw [hj2]
      dsimp only
      rw [if_pos (show tj.loaded = false ∧ tj.loading = false from ⟨hld, hlg⟩)]
      rw [if_neg (by rw [hc]; exact Bool.false_ne_true)]
      rfl
  | cons k skips ih =>
    intro fuel s j rest tj hp hskips hj hld hlg hc hact hfuel
    cases fuel with
    | zero => simp at hfuel
    | succ f =>
      simp only [List.cons_append] at hp
      simp only [pendingLoop, hp]
      rw [if_pos hact]
      have hs1 : ({ s with pending := skips ++ j :: rest } : WState).thumbs = s.thumbs := rfl
      cases hk : s.thumbs.get? k with
      | none =>
        dsimp only
        rw [ih f { s with pending := skips ++ j :: rest } j rest tj rfl
          (fun k2 hk2 => hskips k2 (List.mem_cons_of_mem k hk2)) hj hld hlg hc hact
          (by simpa using Nat.le_of_succ_le_succ hfuel)]
      | some tk =>
        dsimp only
        have hnn := hskips k (List.mem_cons_self k skips) tk hk
        rw [if_neg (by
          rintro ⟨h1, h2⟩
          rcases hnn with h | h
          · rw [h1] at h; exact Bool.false_ne_true h
          · rw [h2] at h; exact Bool.false_ne_true h)]
        rw [ih f { s with pending := skips ++ j :: rest } j rest tj rfl
          (fun k2 hk2 => hskips k2 (List.mem_cons_of_mem k hk2)) hj hld hlg hc hact
          (by simpa using Nat.le_of_succ_le_succ hfuel)]

/-- C9.  The pending queue is FIFO: a dispatch that overflows the
concurrency cap appends the entry at the tail of `pending_loads` (first
conjunct), and on a decode completion the scheduler releases the slot and
pops entries from the head, skipping entries no longer needed (already
loaded or loading) and starting the first needed entry — here one with no
cache file, the very condition under which entries are enqueued — in the
freed slot, leaving the queue at exactly the entries behind it (second
conjunct). -/
theorem c9_fifo_pending_queue :
    (∀ (env : Env) (fuel : ℕ) (s : WState) (i : ℕ) (t : Thumb),
      s.thumbs.get? i = some t → needsLoading t = true →
      env.cacheExists t.path = false →
      maxConcurrentWorkers ≤ s.activeWorkers →
      i ∉ s.pending →
      dispatchStep env fuel s i = { s with pending := s.pending ++ [i] }) ∧
    (∀ (env : Env) (fuel : ℕ) (s : WState) (skips : List ℕ) (j : ℕ)
        (rest : List ℕ) (tj : Thumb),
      s.pending = skips ++ j :: rest →
      (∀ k ∈ skips, ∀ tk, s.thumbs.get? k = some tk →
        tk.loaded = true ∨ tk.loading = true) →
      s.thumbs.get? j = some tj → tj.loaded = false → tj.loading = false →
      env.cacheExists tj.path = false →
      1 ≤ s.activeWorkers → s.activeWorkers ≤ maxConcurrentWorkers →
      skips.length + 1 ≤ fuel →
      onThumbnailLoaded env fuel s =
        { thumbs := s.thumbs.set j
            { tj with loading := true, text := TextState.loadingMsg },
          activeWorkers := s.activeWorkers,
          pending := rest }) := by
  constructor
  · intro env fuel s i t hi hn hc hsat hmem
    simp only [dispatchStep]
    rw [hi]
    dsimp only
    rw [if_pos hn]
    rw [if_neg (by rw [hc]; exact Bool.false_ne_true)]
    rw [if_neg (by omega)]
    rw [if_neg hmem]
  · intro env fuel s skips j rest tj hp hskips hj hld hlg hc hone hle hfuel
    unfold onThumbnailLoaded
    have hdec : decWorkers s = { s with activeWorkers := s.activeWorkers - 1 } := by
      unfold decWorkers
      rw [if_pos (by omega)]
    rw [hdec]
    rw [pendingLoop_fifo env skips fuel { s with activeWorkers := s.activeWorkers - 1 }
      j rest tj hp hskips hj hld hlg hc (by show s.activeWorkers - 1 < _; omega) hfuel]
    have hplus : s.activeWorkers - 1 + 1 = s.activeWorkers := by omega
    rw [hplus]

/-- Witness for C9: the completion handler pops the stale head 0, starts
entry 1 in the freed slot, and leaves the queue empty. -/
theorem c9_witness :
    onThumbnailLoaded envC9 3 sC9 =
      { thumbs := sC9.thumbs.set 1
          { freshThumb 1 1 with loading := true, text := TextState.loadingMsg },
        activeWorkers := 1, pending := [] } :=
  c9_fifo_pending_queue.2 envC9 3 sC9 [0] 1 [] (freshThumb 1 1) rfl
    (by
      intro k hk tk htk
      rw [List.mem_singleton.mp hk] at htk
      rw [← Option.some.inj htk]
      left
      rfl)
    rfl rfl rfl rfl (by decide) (by decide) (by decide)

/-- C1 is violated by the code: one `start_lazy_loading` pass over the
visible range `(0, 8)` dispatches thumbnails 0–5 asynchronously (filling
all six slots), queues thumbnail 6, then serves cache-hit thumbnail 7
synchronously — whose `load_completed` signal runs `on_thumbnail_loaded`,
which decrements `active_workers` (a slot the cache hit never took) and
starts thumbnail 6.  Seven decode workers are then simultaneously in
flight while the counter reads six. -/
theorem c1_concurrency_cap_exceeded :
    maxConcurrentWorkers = 6 ∧
    (startLazyLoading envC1 100 0 8 stateC1).activeWorkers = 6 ∧
    inflightCount (startLazyLoading envC1 100 0 8 stateC1) = 7 := by
  refine ⟨rfl, by decide, by decide⟩
